import Mathlib

/-!
Verification of the go-lumber server core (lumberjack protocol endpoint).

This file embeds the server-side code shallowly in Lean:

* the v2 frame codec (server/v2/reader.go): windows, JSON data frames,
  zlib-compressed frames; byte streams are lists of naturals, the injected
  JSON decoder and the zlib inflate step are function parameters;
* the per-connection handler (server/internal/handler.go): the ACK loop and
  waitACK are modelled as state machines driven by an explicit observation
  schedule standing for the outcomes of the Go select statements;
* the version multiplexer and lifecycle entry points (server/server.go).

General recursion over the (finite) input stream is expressed with an explicit
fuel parameter that bounds the number of frame-loop iterations; theorems state
results for every sufficiently large fuel.
-/

namespace GoLumber

/-- Protocol frame code constants. Modelled from the spec wire table (the
protocol/v2 constants package is not under src/): version byte is the ASCII
digit 2 (0x32), frame types are W (window, 0x57), J (JSON data, 0x4A),
C (compressed, 0x43) and A (ACK, 0x41). -/
def CodeVersion : Nat := 50

def CodeWindowSize : Nat := 87

def CodeJSONDataFrame : Nat := 74

def CodeCompressed : Nat := 67

def CodeACK : Nat := 65

/-- Errors surfaced by the reader: protocol errors (ErrProtocolError), short
reads (io.EOF / io.ErrUnexpectedEOF from io.ReadFull), zlib initialization
failures, decoder failures, and fuel exhaustion of the embedding (never hit
for adequate fuel). -/
inductive Err where
  | protocol
  | eof
  | zlib
  | decode
  | fuel
deriving DecidableEq

/-- Model of readFull / io.ReadFull on a byte-list stream: take exactly n
bytes, failing when the stream is shorter. Returns the bytes read and the
remainder of the stream. -/
def readFull (n : Nat) (input : List Nat) : Option (List Nat × List Nat) :=
  if n ≤ input.length then some (input.take n, input.drop n) else none

/-- binary.BigEndian.Uint32 on a 4-byte list. -/
def be32 (b : List Nat) : Nat :=
  ((b.getD 0 0 * 256 + b.getD 1 0) * 256 + b.getD 2 0) * 256 + b.getD 3 0

/-- Big-endian 4-byte encoding of a 32-bit number (used to build wire inputs
for the theorems). -/
def be32enc (n : Nat) : List Nat :=
  [n / 16777216 % 256, n / 65536 % 256, n / 256 % 256, n % 256]

/-- Modelled from the spec: the lj.Batch type (the lj package is not under
src/). A Batch is an ordered, immutable event list; the source metadata
(remote address, TLS state) and the single-shot ACK signal carried by the Go
struct play no role in the framing claims and are represented elsewhere (the
ACK signal appears as the acked observation of the handler model). -/
structure Batch (α : Type) where
  events : List α
deriving DecidableEq

/-- Modelled from the spec: lj.NewBatchWithSourceMetadata builds a Batch from
the decoded event list (metadata omitted, see Batch). -/
def NewBatchWithSourceMetadata (events : List α) : Batch α :=
  ⟨events⟩

/-- Model of the final drain loop of readCompressed: the limit reader has
n declared bytes left, and reading it to EOF drops them from the stream
(or the whole stream if it is shorter). -/
def drainLimit (n : Nat) (input : List Nat) : List Nat :=
  input.drop n

/-- Model of reader.readJSONEvent: read an 8-byte header (4-byte sequence
number, 4-byte big-endian payload length), read the payload, decode it with
the injected decoder dec (None models a decoder error). The scratch-buffer
reuse of the Go code only affects allocation, not the bytes handed to the
decoder. -/
def readJSONEvent (dec : List Nat → Option α) (input : List Nat) :
    Except Err (α × List Nat) :=
  match readFull 8 input with
  | none => Except.error Err.eof
  | some (hdr, rest) =>
    match readFull (be32 (hdr.drop 4)) rest with
    | none => Except.error Err.eof
    | some (payload, rest2) =>
      match dec payload with
      | none => Except.error Err.decode
      | some ev => Except.ok (ev, rest2)

/-- Model of reader.readEvents: loop while fewer than cap events have been
collected; read a 2-byte event header; a version byte other than 0x32 or an
unknown frame type is a protocol error; a J frame appends one decoded event;
a C frame (the inlined body of reader.readCompressed, see readCompressed and
readEvents_compressed_step below) reads a 4-byte declared length L, hands the
next (at most) L bytes to zlib — modelled by the parameter unz, which returns
the decompressed bytes together with the number of window bytes it consumed —
recursively reads events from the decompressed stream, and finally drains the
rest of the declared L bytes from the transport. fuel bounds the number of
loop iterations. -/
def readEvents (dec : List Nat → Option α) (unz : List Nat → Option (List Nat × Nat)) :
    Nat → Nat → List α → List Nat → Except Err (List α × List Nat)
  | fuel, cap, events, input =>
    if events.length < cap then
      match fuel with
      | 0 => Except.error Err.fuel
      | f + 1 =>
        match readFull 2 input with
        | none => Except.error Err.eof
        | some (hdr, rest) =>
          if hdr.getD 0 0 ≠ CodeVersion then Except.error Err.protocol
          else if hdr.getD 1 0 = CodeJSONDataFrame then
            match readJSONEvent dec rest with
            | Except.error e => Except.error e
            | Except.ok (ev, rest2) => readEvents dec unz f cap (events ++ [ev]) rest2
          else if hdr.getD 1 0 = CodeCompressed then
            match readFull 4 rest with
            | none => Except.error Err.eof
            | some (hdr4, rest2) =>
              match unz (rest2.take (be32 hdr4)) with
              | none => Except.error Err.zlib
              | some (decomp, consumed) =>
                match readEvents dec unz f cap events decomp with
                | Except.error e => Except.error e
                | Except.ok (events2, _leftover) =>
                  readEvents dec unz f cap events2
                    (drainLimit (be32 hdr4 - consumed) (rest2.drop consumed))
          else Except.error Err.protocol
    else Except.ok (events, input)

/-- Model of reader.readCompressed: read the 4-byte big-endian declared
length, pass a limit-reader view of that many bytes to zlib (parameter unz,
returning decompressed bytes and the number of window bytes consumed), read
events from the decompressed stream, discard its leftover, then drain the
remaining declared bytes from the underlying stream. -/
def readCompressed (dec : List Nat → Option α) (unz : List Nat → Option (List Nat × Nat))
    (fuel cap : Nat) (events : List α) (input : List Nat) :
    Except Err (List α × List Nat) :=
  match readFull 4 input with
  | none => Except.error Err.eof
  | some (hdr4, rest2) =>
    match unz (rest2.take (be32 hdr4)) with
    | none => Except.error Err.zlib
    | some (decomp, consumed) =>
      match readEvents dec unz fuel cap events decomp with
      | Except.error e => Except.error e
      | Except.ok (events2, _leftover) =>
        Except.ok (events2, drainLimit (be32 hdr4 - consumed) (rest2.drop consumed))

/-- Model of reader.ReadBatch: read the 6-byte window header; the guard is the
one of the source, a protocol error only when the version byte is wrong AND
the frame-type byte is wrong (reader.go line 72 uses a conjunction); a window
size of zero yields no batch; otherwise read exactly count events and wrap
them in a Batch. Read deadlines are timing-only and not modelled. -/
def ReadBatch (dec : List Nat → Option α) (unz : List Nat → Option (List Nat × Nat))
    (fuel : Nat) (input : List Nat) :
    Except Err (Option (Batch α) × List Nat) :=
  match readFull 6 input with
  | none => Except.error Err.eof
  | some (win, rest) =>
    if win.getD 0 0 ≠ CodeVersion ∧ win.getD 1 0 ≠ CodeWindowSize then
      Except.error Err.protocol
    else
      if be32 (win.drop 2) = 0 then Except.ok (none, rest)
      else
        match readEvents dec unz fuel (be32 (win.drop 2)) [] rest with
        | Except.error e => Except.error e
        | Except.ok (events, rest2) =>
          Except.ok (some (NewBatchWithSourceMetadata events), rest2)

/-! Wire encoders used to state the round-trip theorems (the client side of
the protocol, per the spec wire table). -/

/-- A v2 JSON data frame: version byte, J, 4-byte sequence number, 4-byte
big-endian payload length, payload bytes. -/
def encJFrame (pr : Nat × List Nat) : List Nat :=
  CodeVersion :: CodeJSONDataFrame :: (be32enc pr.1 ++ be32enc pr.2.length ++ pr.2)

/-- Concatenation of the J frames of a list of (sequence number, payload)
pairs. -/
def encFrames : List (Nat × List Nat) → List Nat
  | [] => []
  | pr :: tl => encJFrame pr ++ encFrames tl

/-- A window header followed by a body: version byte, W, 4-byte big-endian
window size, body. -/
def encWindow (count : Nat) (body : List Nat) : List Nat :=
  CodeVersion :: CodeWindowSize :: (be32enc count ++ body)

/-- A compressed frame: version byte, C, 4-byte big-endian declared length of
the compressed bytes, the compressed bytes. -/
def encCompressed (zb : List Nat) : List Nat :=
  CodeVersion :: CodeCompressed :: (be32enc zb.length ++ zb)

/-- Run the injected decoder over a list of payloads, failing if any payload
fails to decode. -/
def decodeAll (dec : List Nat → Option α) : List (List Nat) → Option (List α)
  | [] => some []
  | p :: ps =>
    match dec p, decodeAll dec ps with
    | some e, some es => some (e :: es)
    | _, _ => none

/-! Model of the per-connection handler (server/internal/handler.go).

waitACK and ackLoop are select-driven loops; their nondeterministic select
outcomes are made explicit as an observation schedule. A wait-state
observation (WEv) is what one iteration of waitACK's select resolves to:
the stop signal, the batch's acknowledgement signal, or the keep-alive
timer firing. A loop-state observation (LEv) is what one iteration of
ackLoop's select resolves to: the stop signal, the handoff channel closing,
or the receipt of a batch (carrying the schedule of the wait on it). -/

/-- Outcome of one iteration of waitACK's select statement. -/
inductive WEv where
  | stop
  | acked
  | tick
deriving DecidableEq

/-- A frame handed to the ACKWriter: writer.ACK n or writer.Keepalive n. -/
inductive Frame where
  | ack (n : Nat)
  | keepalive (n : Nat)
deriving DecidableEq

def Frame.isAck : Frame → Bool
  | Frame.ack _ => true
  | Frame.keepalive _ => false

/-- Modelled from the spec: the v2 ACK writer encoding (the protocol/v2
writer is not under src/): version byte, A, 4-byte big-endian count; the
keep-alive frame uses the identical encoding with count zero. -/
def encodeFrame : Frame → List Nat
  | Frame.ack n => CodeVersion :: CodeACK :: be32enc n
  | Frame.keepalive n => CodeVersion :: CodeACK :: be32enc n

/-- Model of defaultHandler.waitACK for a batch of n events, returning the
frames written: on stop, return with no write (a nil error in Go, so the
ACK loop continues); on the batch's acknowledgement, write one ACK carrying
n; on a timer tick (only possible when the keep-alive interval ka is
positive; Go creates no timer otherwise), write a keep-alive with count 0
and keep waiting. Write errors are not modelled (the writer is pure). -/
def waitACK (ka : Nat) (n : Nat) : List WEv → List Frame
  | [] => []
  | WEv.stop :: _ => []
  | WEv.acked :: _ => [Frame.ack n]
  | WEv.tick :: rest =>
    if 0 < ka then Frame.keepalive 0 :: waitACK ka n rest else waitACK ka n rest

/-- Outcome of one iteration of ackLoop's select statement. -/
inductive LEv (α : Type) where
  | stop
  | chClose
  | recv (b : Batch α) (ws : List WEv)

/-- Model of defaultHandler.ackLoop: return on the stop signal or on the
handoff channel closing (the deferred drain then consumes the queued
batches without writing anything); on receiving a batch, run waitACK on it
and continue (waitACK only propagates write errors, which the pure model
has none of). The frames written on the connection are returned in order. -/
def ackLoop (ka : Nat) : List (LEv α) → List Frame
  | [] => []
  | LEv.stop :: _ => []
  | LEv.chClose :: _ => []
  | LEv.recv b ws :: rest => waitACK ka b.events.length ws ++ ackLoop ka rest

/-- Whether a wait schedule reaches the batch's acknowledgement (rather than
stop or the end of the run). -/
def waitOutcome : List WEv → Bool
  | [] => false
  | WEv.stop :: _ => false
  | WEv.acked :: _ => true
  | WEv.tick :: rest => waitOutcome rest

/-- Number of keep-alive timer ticks observed before a wait terminates. -/
def ticksBefore : List WEv → Nat
  | [] => 0
  | WEv.stop :: _ => 0
  | WEv.acked :: _ => 0
  | WEv.tick :: rest => ticksBefore rest + 1

/-- The batches whose wait reached acknowledgement, in the order the ACK
loop received them from the handoff channel. -/
def ackedBatches : List (LEv α) → List (Batch α)
  | [] => []
  | LEv.stop :: _ => []
  | LEv.chClose :: _ => []
  | LEv.recv b ws :: rest =>
    if waitOutcome ws then b :: ackedBatches rest else ackedBatches rest

/-- State touched by defaultHandler.Stop: the sync.Once guard, the stop
signal channel, and the number of times the transport was closed. -/
structure HandlerState where
  guardUsed : Bool
  signalClosed : Bool
  transportCloses : Nat
deriving DecidableEq

/-- Model of defaultHandler.Stop: under the sync.Once guard, close the stop
signal and close the client transport; a second call finds the guard used
and does nothing. -/
def Stop (s : HandlerState) : HandlerState :=
  if s.guardUsed then s else ⟨true, true, s.transportCloses + 1⟩

def initialHandlerState : HandlerState :=
  ⟨false, false, 0⟩

/-! Model of the multiplexing server lifecycle (server/server.go). -/

/-- State touched by server.Close: whether the done channel has been closed,
whether the server owns the sink channel, and whether the sink channel has
been closed. Closing the sub-servers and waiting on the wait group carry no
modelled state. -/
structure ServerState where
  doneClosed : Bool
  ownCH : Bool
  chClosed : Bool
deriving DecidableEq

/-- A Go runtime panic; closing an already-closed channel panics. -/
inductive GoPanic where
  | closeOfClosedChannel
deriving DecidableEq

/-- Model of server.Close (server.go lines 72 to 83): close(s.done) with no
guard — a runtime panic if done is already closed — then close the
sub-servers, wait, and close the sink channel when owned. -/
def serverClose (s : ServerState) : Except GoPanic ServerState :=
  if s.doneClosed then Except.error GoPanic.closeOfClosedChannel
  else if s.ownCH && s.chClosed then Except.error GoPanic.closeOfClosedChannel
  else Except.ok ⟨true, s.ownCH, s.chClosed || s.ownCH⟩

/-- Result of handling a fresh connection: routed to the sub-server for a
version byte (with the wrapped connection stream), or closed. No response
bytes are ever written on either path. -/
inductive HandleResult where
  | routed (ver : Nat) (conn : List Nat)
  | closed
deriving DecidableEq

/-- Modelled from the spec: newMuxConn wraps the connection so that the
peeked byte is prepended back onto the read stream (the muxConn type is not
under src/). -/
def newMuxConn (b : Nat) (rest : List Nat) : List Nat :=
  b :: rest

/-- The loop over s.mux in server.Handle: find the first registered version
byte equal to the peeked byte and route the wrapped connection to it;
close the connection if none matches. -/
def routeMux : List Nat → Nat → List Nat → HandleResult
  | [], _, _ => HandleResult.closed
  | m :: ms, b, rest =>
    if m = b then HandleResult.routed m (newMuxConn b rest) else routeMux ms b rest

/-- Model of server.Handle (server.go lines 185 to 219): read one byte from
the connection (closing it on a read error, modelled by the empty stream),
then dispatch on the registered multiplexers. -/
def Handle (muxes : List Nat) (input : List Nat) : HandleResult :=
  match input with
  | [] => HandleResult.closed
  | b :: rest => routeMux muxes b rest

/-- The multiplexer bytes registered by NewServer: the v1 sub-server under
byte 1 (0x31) when v1 is enabled, then the v2 sub-server under byte 2
(0x32) when v2 is enabled. -/
def serverMuxes (v1 v2 : Bool) : List Nat :=
  (if v1 then [49] else []) ++ (if v2 then [50] else [])

/-! Helper lemmas about the byte-stream primitives. -/

theorem readFull_append {n : Nat} (xs ys : List Nat) (h : xs.length = n) :
    readFull n (xs ++ ys) = some (xs, ys) := by
  subst h
  simp [readFull]

theorem be32enc_length (n : Nat) : (be32enc n).length = 4 := rfl

theorem be32_be32enc {n : Nat} (h : n < 4294967296) : be32 (be32enc n) = n := by
  simp [be32, be32enc]
  omega

theorem decodeAll_length {α : Type} (dec : List Nat → Option α) :
    ∀ (l : List (List Nat)) (evs : List α),
      decodeAll dec l = some evs → evs.length = l.length := by
  intro l
  induction l with
  | nil =>
    intro evs h
    simp [decodeAll] at h
    subst h
    rfl
  | cons p tl ih =>
    intro evs h
    rcases hd : dec p with _ | e
    · rw [decodeAll, hd] at h
      simp at h
    · rcases hr : decodeAll dec tl with _ | evs2
      · rw [decodeAll, hd, hr] at h
        simp at h
      · rw [decodeAll, hd, hr] at h
        simp at h
        subst h
        simp [ih evs2 hr]

/-! Unfolding lemmas for readEvents, matching the loop of the Go source:
one lemma for loop exit, one per frame kind for a loop iteration. -/

theorem readEvents_done {α : Type} (dec : List Nat → Option α) (unz) (fuel cap : Nat)
    (events : List α) (input : List Nat) (h : ¬ events.length < cap) :
    readEvents dec unz fuel cap events input = Except.ok (events, input) := by
  rw [readEvents.eq_def]
  simp [h]

theorem readEvents_step_J {α : Type} (dec : List Nat → Option α) (unz) (f cap : Nat)
    (events : List α) (rest : List Nat) (h : events.length < cap) :
    readEvents dec unz (f + 1) cap events (CodeVersion :: CodeJSONDataFrame :: rest) =
      match readJSONEvent dec rest with
      | Except.error e => Except.error e
      | Except.ok (ev, rest2) => readEvents dec unz f cap (events ++ [ev]) rest2 := by
  rw [readEvents]
  simp only [h, if_pos, readFull, CodeVersion, CodeJSONDataFrame]
  norm_num
  rcases hj : readJSONEvent dec rest with e | ⟨ev, rest2⟩
  · rfl
  · rfl

/-- Reading a compressed frame inside the event loop is exactly
readCompressed followed by re-entering the loop: the correspondence between
the inlined compressed branch of readEvents and the separate readCompressed
definition of the source. -/
theorem readEvents_step_C {α : Type} (dec : List Nat → Option α) (unz) (f cap : Nat)
    (events : List α) (rest : List Nat) (h : events.length < cap) :
    readEvents dec unz (f + 1) cap events (CodeVersion :: CodeCompressed :: rest) =
      match readCompressed dec unz f cap events rest with
      | Except.error e => Except.error e
      | Except.ok (events2, rest2) => readEvents dec unz f cap events2 rest2 := by
  rw [readEvents]
  simp only [readCompressed, readFull, CodeVersion, CodeCompressed, CodeJSONDataFrame]
  simp [h]
  rcases h4 : (if 4 ≤ rest.length then some (rest.take 4, rest.drop 4) else none) with _ | ⟨hdr4, rest2⟩
  · simp
  · simp
    rcases hz : unz (rest2.take (be32 hdr4)) with _ | ⟨decomp, consumed⟩
    · simp
    · simp
      rcases hr : readEvents dec unz f cap events decomp with e | ⟨events2, leftover⟩
      · simp
      · simp

theorem readJSONEvent_enc {α : Type} (dec : List Nat → Option α) (s : Nat)
    (p rest : List Nat) (hp : p.length < 4294967296) :
    readJSONEvent dec (be32enc s ++ (be32enc p.length ++ (p ++ rest))) =
      match dec p with
      | none => Except.error Err.decode
      | some ev => Except.ok (ev, rest) := by
  unfold readJSONEvent
  rw [show be32enc s ++ (be32enc p.length ++ (p ++ rest)) =
      (be32enc s ++ be32enc p.length) ++ (p ++ rest) by simp]
  rw [readFull_append (be32enc s ++ be32enc p.length) (p ++ rest) (by simp [be32enc])]
  have hdrop : (be32enc s ++ be32enc p.length).drop 4 = be32enc p.length := by
    rw [show (4 : Nat) = (be32enc s).length from rfl]
    exact List.drop_left _ _
  simp only [hdrop, be32_be32enc hp, readFull_append p rest rfl]
  cases hdp : dec p <;> simp [hdp]

/-- Loop invariant of readEvents over a stream of well-formed J frames:
starting from accumulator acc with capacity acc.length + k, the loop consumes
exactly the first k frames, appends their decoded events in wire order, and
leaves the remaining frames and trailing bytes unread. -/
theorem readEvents_encFrames {α : Type} (dec : List Nat → Option α) (unz) :
    ∀ (k : Nat) (ps : List (Nat × List Nat)) (fuel : Nat) (acc : List α)
      (extra : List Nat) (evs : List α),
      k ≤ ps.length →
      (∀ pr ∈ ps.take k, pr.2.length < 4294967296) →
      decodeAll dec ((ps.take k).map Prod.snd) = some evs →
      k ≤ fuel →
      readEvents dec unz fuel (acc.length + k) acc (encFrames ps ++ extra) =
        Except.ok (acc ++ evs, encFrames (ps.drop k) ++ extra) := by
  intro k
  induction k with
  | zero =>
    intro ps fuel acc extra evs _ _ hdec _
    simp [decodeAll] at hdec
    subst hdec
    simpa using readEvents_done dec unz fuel (acc.length + 0) acc (encFrames ps ++ extra) (by omega)
  | succ k ih =>
    intro ps fuel acc extra evs hk hsz hdec hfuel
    cases ps with
    | nil => simp at hk
    | cons pr tl =>
      cases fuel with
      | zero => omega
      | succ f =>
        have hin : encFrames (pr :: tl) ++ extra =
            CodeVersion :: CodeJSONDataFrame ::
              (be32enc pr.1 ++ (be32enc pr.2.length ++ (pr.2 ++ (encFrames tl ++ extra)))) := by
          simp [encFrames, encJFrame]
        rw [hin, readEvents_step_J dec unz f _ acc _ (by omega)]
        have hsz1 : pr.2.length < 4294967296 := hsz pr (by simp)
        rw [readJSONEvent_enc dec pr.1 pr.2 _ hsz1]
        simp only [List.take_succ_cons, List.map_cons] at hdec
        rcases hd : dec pr.2 with _ | e
        · rw [decodeAll, hd] at hdec
          simp at hdec
        · rcases hr : decodeAll dec ((tl.take k).map Prod.snd) with _ | evs2
          · rw [decodeAll, hd, hr] at hdec
            simp at hdec
          · rw [decodeAll, hd, hr] at hdec
            simp at hdec
            subst hdec
            have hcap : acc.length + (k + 1) = (acc ++ [e]).length + k := by
              simp
              omega
            have hih := ih tl f (acc ++ [e]) extra evs2 (by simpa using hk)
              (fun q hq => hsz q (by
                rw [List.take_succ_cons]
                exact List.mem_cons_of_mem pr hq))
              hr (by omega)
            rw [hcap]
            simp
            simpa using hih

/-- Unfolding ReadBatch on a well-formed non-empty window header: the header
passes the guard and the declared count is read back, so the result is that
of the event loop. -/
theorem ReadBatch_unfold {α : Type} (dec : List Nat → Option α) (unz) (fuel N : Nat)
    (rest : List Nat) (hN : N < 4294967296) (hN0 : 0 < N) :
    ReadBatch dec unz fuel (CodeVersion :: CodeWindowSize :: (be32enc N ++ rest)) =
      match readEvents dec unz fuel N [] rest with
      | Except.error e => Except.error e
      | Except.ok (events, rest2) =>
        Except.ok (some (NewBatchWithSourceMetadata events), rest2) := by
  unfold ReadBatch
  rw [show CodeVersion :: CodeWindowSize :: (be32enc N ++ rest) =
      (CodeVersion :: CodeWindowSize :: be32enc N) ++ rest by simp]
  rw [readFull_append (CodeVersion :: CodeWindowSize :: be32enc N) rest (by simp [be32enc])]
  have hdrop : (CodeVersion :: CodeWindowSize :: be32enc N).drop 2 = be32enc N := rfl
  simp only [hdrop, be32_be32enc hN]
  have hguard : ¬ ((CodeVersion :: CodeWindowSize :: be32enc N).getD 0 0 ≠ CodeVersion ∧
      (CodeVersion :: CodeWindowSize :: be32enc N).getD 1 0 ≠ CodeWindowSize) := by
    simp
  simp only [if_neg hguard, if_neg (by omega : ¬ N = 0)]

/-- ReadBatch on a window declaring k events whose body starts with at least
k well-formed J frames: the first k frames are decoded into the batch, in
wire order, and the rest of the body is left unread. -/
theorem ReadBatch_encWindow_frames {α : Type} (dec : List Nat → Option α) (unz)
    (k : Nat) (ps : List (Nat × List Nat)) (evs : List α) (trailing : List Nat)
    (fuel : Nat)
    (hk : k ≤ ps.length) (hk0 : 0 < k) (hkN : k < 4294967296)
    (hsz : ∀ pr ∈ ps.take k, pr.2.length < 4294967296)
    (hdec : decodeAll dec ((ps.take k).map Prod.snd) = some evs)
    (hfuel : k ≤ fuel) :
    ReadBatch dec unz fuel (encWindow k (encFrames ps) ++ trailing) =
      Except.ok (some (NewBatchWithSourceMetadata evs),
        encFrames (ps.drop k) ++ trailing) := by
  rw [show encWindow k (encFrames ps) ++ trailing =
      CodeVersion :: CodeWindowSize :: (be32enc k ++ (encFrames ps ++ trailing)) by
    simp [encWindow]]
  rw [ReadBatch_unfold dec unz fuel k _ hkN hk0]
  have hmain := readEvents_encFrames dec unz k ps fuel [] trailing evs hk hsz hdec hfuel
  simp only [List.length_nil, Nat.zero_add, List.nil_append] at hmain
  rw [hmain]

/-- ReadBatch on a window of N events carried by a single compressed frame
whose inflated bytes start with at least N well-formed J frames: the first N
inflated frames are decoded into the batch, the surplus inflated frames are
discarded undecoded, the declared compressed length is drained, and the
trailing transport bytes are left unread. -/
theorem ReadBatch_encWindow_compressed {α : Type} (dec : List Nat → Option α) (unz)
    (N : Nat) (ps : List (Nat × List Nat)) (zb : List Nat) (c : Nat) (evs : List α)
    (trailing : List Nat) (fuel : Nat)
    (hN0 : 0 < N) (hNle : N ≤ ps.length) (hN32 : N < 4294967296)
    (hsz : ∀ pr ∈ ps.take N, pr.2.length < 4294967296)
    (hzb : zb.length < 4294967296)
    (hunz : unz zb = some (encFrames ps, c))
    (hc : c ≤ zb.length)
    (hdec : decodeAll dec ((ps.take N).map Prod.snd) = some evs)
    (hfuel : N + 1 ≤ fuel) :
    ReadBatch dec unz fuel (encWindow N (encCompressed zb) ++ trailing) =
      Except.ok (some (NewBatchWithSourceMetadata evs), trailing) := by
  rw [show encWindow N (encCompressed zb) ++ trailing =
      CodeVersion :: CodeWindowSize ::
        (be32enc N ++ (CodeVersion :: CodeCompressed ::
          (be32enc zb.length ++ (zb ++ trailing)))) by
    simp [encWindow, encCompressed]]
  rw [ReadBatch_unfold dec unz fuel N _ hN32 hN0]
  cases fuel with
  | zero => omega
  | succ f =>
    rw [readEvents_step_C dec unz f N [] _ (by simpa using hN0)]
    have hlenevs : evs.length = N := by
      rw [decodeAll_length dec _ evs hdec]
      simp
      omega
    have hre : readEvents dec unz f N [] (encFrames ps) =
        Except.ok (evs, encFrames (ps.drop N)) := by
      simpa using readEvents_encFrames dec unz N ps f [] [] evs hNle hsz hdec (by omega)
    have hdrain : drainLimit (zb.length - c) ((zb ++ trailing).drop c) = trailing := by
      unfold drainLimit
      rw [List.drop_drop, show c + (zb.length - c) = zb.length by omega]
      exact List.drop_left zb trailing
    have hcomp : readCompressed dec unz f N []
        (be32enc zb.length ++ (zb ++ trailing)) =
        Except.ok (evs, trailing) := by
      unfold readCompressed
      rw [readFull_append (be32enc zb.length) (zb ++ trailing) (by simp [be32enc])]
      simp only [be32_be32enc hzb]
      rw [show (zb ++ trailing).take zb.length = zb from List.take_left zb trailing]
      rw [hunz]
      simp only [hre, hdrain]
    rw [hcomp]
    simp only [readEvents_done dec unz f N evs trailing (by omega)]

/-- Claim C1 (code bug): the claim states that a window header whose version
byte is not 2 or whose frame-type byte is not W is a protocol error. The
source guard (reader.go line 72) conjoins the two mismatches, so a header
that is wrong in only one byte is accepted. Here a window header with
version byte 1 (0x31) and correct frame type W is accepted and ReadBatch
even yields a Batch from the following event frame instead of the protocol
error the claim requires. -/
theorem readBatch_window_guard_code_bug :
    ReadBatch (α := List Nat) some (fun _ => none) 1
        ([49, 87, 0, 0, 0, 1] ++ [50, 74, 0, 0, 0, 7, 0, 0, 0, 1, 9]) =
      Except.ok (some (NewBatchWithSourceMetadata [[9]]), []) := rfl

/-- Claim C2: for every well-formed v2 window with announced size N at least
one whose N event frames all decode successfully, ReadBatch returns a Batch
whose event list has exactly N elements, in the order the events appeared on
the wire, each element being the injected decoder's output for the
corresponding payload. -/
theorem readBatch_wellformed_window {α : Type} (dec : List Nat → Option α) (unz)
    (ps : List (Nat × List Nat)) (evs : List α) (trailing : List Nat) (fuel : Nat)
    (hne : ps ≠ [])
    (hN : ps.length < 4294967296)
    (hsz : ∀ pr ∈ ps, pr.2.length < 4294967296)
    (hdec : decodeAll dec (ps.map Prod.snd) = some evs)
    (hfuel : ps.length ≤ fuel) :
    ReadBatch dec unz fuel (encWindow ps.length (encFrames ps) ++ trailing) =
      Except.ok (some (NewBatchWithSourceMetadata evs), trailing) ∧
      evs.length = ps.length := by
  constructor
  · have h1 := ReadBatch_encWindow_frames dec unz ps.length ps evs trailing fuel
      (le_refl _) (List.length_pos.mpr hne) hN (by simpa using hsz)
      (by simpa using hdec) hfuel
    simpa [encFrames] using h1
  · rw [decodeAll_length dec _ evs hdec]
    simp

theorem readBatch_wellformed_window_witness :
    decodeAll (α := List Nat) some ([(0, [7])].map Prod.snd) = some [[7]] ∧
    ReadBatch (α := List Nat) some (fun _ => none) 1
        (encWindow 1 (encFrames [(0, [7])]) ++ [9]) =
      Except.ok (some (NewBatchWithSourceMetadata [[7]]), [9]) := by
  refine ⟨rfl, ?_⟩
  exact (readBatch_wellformed_window (α := List Nat) some (fun _ => none)
    [(0, [7])] [[7]] [9] 1 (by decide) (by decide) (by decide) rfl
    (by decide)).1

/-- Claim C3: a window carrying a sequence S of event frames wrapped in a
single compressed C frame (whose inflated bytes are the concatenation of
the frames of S and whose declared length is the compressed byte count)
produces the same Batch as a window carrying S uncompressed. unz zb is the
inflation of the compressed bytes zb, consuming c of them. -/
theorem compressed_uncompressed_equiv {α : Type} (dec : List Nat → Option α) (unz)
    (ps : List (Nat × List Nat)) (zb : List Nat) (c : Nat) (evs : List α)
    (trailing : List Nat) (fuel : Nat)
    (hne : ps ≠ [])
    (hN : ps.length < 4294967296)
    (hsz : ∀ pr ∈ ps, pr.2.length < 4294967296)
    (hzb : zb.length < 4294967296)
    (hunz : unz zb = some (encFrames ps, c))
    (hc : c ≤ zb.length)
    (hdec : decodeAll dec (ps.map Prod.snd) = some evs)
    (hfuel : ps.length + 1 ≤ fuel) :
    ReadBatch dec unz fuel (encWindow ps.length (encCompressed zb) ++ trailing) =
      ReadBatch dec unz fuel (encWindow ps.length (encFrames ps) ++ trailing) := by
  rw [ReadBatch_encWindow_compressed dec unz ps.length ps zb c evs trailing fuel
    (List.length_pos.mpr hne) (le_refl _) hN (by simpa using hsz) hzb hunz hc
    (by simpa using hdec) hfuel]
  have h2 := ReadBatch_encWindow_frames dec unz ps.length ps evs trailing fuel
    (le_refl _) (List.length_pos.mpr hne) hN (by simpa using hsz)
    (by simpa using hdec) (by omega)
  rw [h2]
  simp [encFrames]

theorem compressed_uncompressed_equiv_witness :
    (fun w => if w = [1, 2] then some (encFrames [(0, [7])], 2) else none) [1, 2] =
      some (encFrames [(0, [7])], 2) ∧
    ReadBatch (α := List Nat) some
        (fun w => if w = [1, 2] then some (encFrames [(0, [7])], 2) else none) 2
        (encWindow 1 (encCompressed [1, 2]) ++ [6]) =
      ReadBatch (α := List Nat) some
        (fun w => if w = [1, 2] then some (encFrames [(0, [7])], 2) else none) 2
        (encWindow 1 (encFrames [(0, [7])]) ++ [6]) := by
  refine ⟨rfl, ?_⟩
  exact compressed_uncompressed_equiv (α := List Nat) some
    (fun w => if w = [1, 2] then some (encFrames [(0, [7])], 2) else none)
    [(0, [7])] [1, 2] 2 [[7]] [6] 2 (by decide) (by decide) (by decide)
    (by decide) rfl (by decide) rfl (by decide)

/-- Claim C4: when readCompressed processes a C frame declaring compressed
length L and the inner event decoding succeeds, exactly L bytes are consumed
from the underlying stream past the length field, even when the zlib stream
consumed only c of them with c smaller than L: the returned remainder is the
input with exactly L bytes dropped after the 4-byte length. -/
theorem readCompressed_consumes_declared_length {α : Type} (dec : List Nat → Option α)
    (unz) (fuel cap : Nat) (events : List α) (L c : Nat) (body decomp : List Nat)
    (evs2 : List α) (leftover : List Nat)
    (hL : L < 4294967296) (hlen : L ≤ body.length)
    (hunz : unz (body.take L) = some (decomp, c)) (hc : c ≤ L)
    (hinner : readEvents dec unz fuel cap events decomp = Except.ok (evs2, leftover)) :
    readCompressed dec unz fuel cap events (be32enc L ++ body) =
      Except.ok (evs2, body.drop L) := by
  unfold readCompressed
  rw [readFull_append (be32enc L) body (by simp [be32enc])]
  simp only [be32_be32enc hL, hunz, hinner]
  unfold drainLimit
  rw [List.drop_drop, show c + (L - c) = L by omega]

theorem readCompressed_consumes_declared_length_witness :
    (fun w => if w = [1, 2] then some (encJFrame (0, [4]), 1) else none)
        ([1, 2, 9].take 2) = some (encJFrame (0, [4]), 1) ∧
    readEvents (α := List Nat) some
        (fun w => if w = [1, 2] then some (encJFrame (0, [4]), 1) else none)
        1 1 [] (encJFrame (0, [4])) = Except.ok ([[4]], []) ∧
    readCompressed (α := List Nat) some
        (fun w => if w = [1, 2] then some (encJFrame (0, [4]), 1) else none)
        1 1 [] (be32enc 2 ++ [1, 2, 9]) = Except.ok ([[4]], [9]) := by
  refine ⟨rfl, rfl, ?_⟩
  exact readCompressed_consumes_declared_length (α := List Nat) some
    (fun w => if w = [1, 2] then some (encJFrame (0, [4]), 1) else none)
    1 1 [] 2 1 [1, 2, 9] (encJFrame (0, [4])) [[4]] [] (by decide) (by decide)
    rfl (by decide) rfl

/-- Claim C10: for a window of announced size N carried by a compressed frame
whose inflated stream contains more event frames than needed, decoding stops
after the N-th event: the surplus inflated frames are discarded without
being decoded (no hypothesis constrains the decoder on them), the declared
compressed length is drained from the input, and ReadBatch returns a Batch
of exactly N events with no error. -/
theorem readBatch_surplus_compressed {α : Type} (dec : List Nat → Option α) (unz)
    (N : Nat) (ps : List (Nat × List Nat)) (zb : List Nat) (c : Nat) (evs : List α)
    (trailing : List Nat) (fuel : Nat)
    (hN0 : 0 < N) (hNle : N ≤ ps.length) (hN32 : N < 4294967296)
    (hsz : ∀ pr ∈ ps.take N, pr.2.length < 4294967296)
    (hzb : zb.length < 4294967296)
    (hunz : unz zb = some (encFrames ps, c))
    (hc : c ≤ zb.length)
    (hdec : decodeAll dec ((ps.take N).map Prod.snd) = some evs)
    (hfuel : N + 1 ≤ fuel) :
    ReadBatch dec unz fuel (encWindow N (encCompressed zb) ++ trailing) =
      Except.ok (some (NewBatchWithSourceMetadata evs), trailing) ∧
      evs.length = N := by
  refine ⟨ReadBatch_encWindow_compressed dec unz N ps zb c evs trailing fuel
    hN0 hNle hN32 hsz hzb hunz hc hdec hfuel, ?_⟩
  rw [decodeAll_length dec _ evs hdec]
  simp
  omega

theorem readBatch_surplus_compressed_witness :
    (fun l => if l = [7] then some l else none : List Nat → Option (List Nat)) [8] =
      none ∧
    ReadBatch (fun l => if l = [7] then some l else none)
        (fun w => if w = [3] then some (encFrames [(0, [7]), (1, [8])], 1) else none) 2
        (encWindow 1 (encCompressed [3]) ++ [6]) =
      Except.ok (some (NewBatchWithSourceMetadata [[7]]), [6]) := by
  refine ⟨rfl, ?_⟩
  exact (readBatch_surplus_compressed (fun l => if l = [7] then some l else none)
    (fun w => if w = [3] then some (encFrames [(0, [7]), (1, [8])], 1) else none)
    1 [(0, [7]), (1, [8])] [3] 1 [[7]] [6] 2 (by decide) (by decide) (by decide)
    (by decide) (by decide) rfl (by decide) rfl (by decide)).1

/-! Handler theorems. -/

/-- Full characterization of the frames written by waitACK on a schedule:
one keep-alive per timer tick while the interval is positive, then a single
ACK exactly when the acknowledgement was observed. -/
theorem waitACK_eq (ka n : Nat) (ws : List WEv) :
    waitACK ka n ws =
      (if 0 < ka then List.replicate (ticksBefore ws) (Frame.keepalive 0) else []) ++
      (if waitOutcome ws then [Frame.ack n] else []) := by
  induction ws with
  | nil => simp [waitACK, ticksBefore, waitOutcome]
  | cons e rest ih =>
    cases e with
    | stop => simp [waitACK, ticksBefore, waitOutcome]
    | acked => simp [waitACK, ticksBefore, waitOutcome]
    | tick =>
      by_cases hka : 0 < ka
      · simp [waitACK, ticksBefore, waitOutcome, hka, ih, List.replicate_succ]
      · simp [waitACK, ticksBefore, waitOutcome, hka, ih]

theorem filter_keepalive_replicate (k : Nat) :
    (List.replicate k (Frame.keepalive 0)).filter Frame.isAck = [] := by
  induction k with
  | zero => rfl
  | succ k ih => simp [List.replicate_succ, Frame.isAck, ih]

theorem filter_isAck_waitACK (ka n : Nat) (ws : List WEv) :
    (waitACK ka n ws).filter Frame.isAck =
      if waitOutcome ws then [Frame.ack n] else [] := by
  rw [waitACK_eq]
  by_cases h : waitOutcome ws <;> by_cases hka : 0 < ka <;>
    simp [h, hka, List.filter_append, Frame.isAck, filter_keepalive_replicate]

/-- Claim C5: for every Batch whose acknowledgement the ACK task observes,
exactly one ACK frame is written and it carries the length of the event
list, encoded as version byte, A, 4-byte big-endian count; every keep-alive
frame written while awaiting carries count 0 (same encoding). -/
theorem waitACK_frames_spec {α : Type} (ka : Nat) (b : Batch α) (ws : List WEv) :
    waitACK ka b.events.length ws =
      (if 0 < ka then List.replicate (ticksBefore ws) (Frame.keepalive 0) else []) ++
      (if waitOutcome ws then [Frame.ack b.events.length] else []) ∧
    encodeFrame (Frame.ack b.events.length) =
      CodeVersion :: CodeACK :: be32enc b.events.length ∧
    encodeFrame (Frame.keepalive 0) = [CodeVersion, CodeACK, 0, 0, 0, 0] :=
  ⟨waitACK_eq ka b.events.length ws, rfl, rfl⟩

/-- Claim C6: on a single connection the ACK frames are emitted exactly for
the acknowledged batches, in the order the batches were received from the
in-order handoff channel — regardless of the order in which the consumer
acknowledged them, since the ACK task processes one batch at a time. -/
theorem ack_frames_in_batch_order {α : Type} (ka : Nat) (evs : List (LEv α)) :
    (ackLoop ka evs).filter Frame.isAck =
      (ackedBatches evs).map (fun b => Frame.ack b.events.length) := by
  induction evs with
  | nil => simp [ackLoop, ackedBatches]
  | cons e rest ih =>
    cases e with
    | stop => simp [ackLoop, ackedBatches]
    | chClose => simp [ackLoop, ackedBatches]
    | recv b ws =>
      by_cases h : waitOutcome ws <;>
        simp [ackLoop, ackedBatches, List.filter_append, filter_isAck_waitACK, ih, h]

/-- Claim C7 (counterexample): the claim states that after the stop signal is
closed no further ACK frame is written. In the source, waitACK returns a nil
error when it observes the stop signal, so ackLoop continues; and with the
signal closed, both the signal case and a ready channel receive (or a ready
batch acknowledgement) are enabled, and a Go select chooses among ready
cases nondeterministically. In this run the stop signal is observed while
waiting on the first queued batch, yet the second queued batch is still
received and ACKed afterwards. -/
theorem ack_after_stop_counterexample :
    ackLoop (α := Nat) 0
        [LEv.recv ⟨[0]⟩ [WEv.stop], LEv.recv ⟨[0]⟩ [WEv.acked]] =
      [Frame.ack 1] := rfl

/-- Claim C7 (amended): once the ACK task observes the stop signal (or the
handoff channel closing) in its main receive loop, it writes no further
frames and drains the remaining queued batches without ACKing them; and
Stop is guarded by a sync.Once, so however often it is invoked it closes
the stop signal and the transport exactly once. -/
theorem stop_semantics_amended :
    (∀ (α : Type) (ka : Nat) (evs : List (LEv α)), ackLoop ka (LEv.stop :: evs) = []) ∧
    (∀ (α : Type) (ka : Nat) (evs : List (LEv α)), ackLoop ka (LEv.chClose :: evs) = []) ∧
    (∀ s : HandlerState, Stop (Stop s) = Stop s) ∧
    (Stop initialHandlerState).signalClosed = true ∧
    (Stop initialHandlerState).transportCloses = 1 := by
  refine ⟨fun α ka evs => rfl, fun α ka evs => rfl, ?_, rfl, rfl⟩
  intro s
  by_cases h : s.guardUsed
  · simp [Stop, h]
  · simp [Stop, h]

/-! Server shell theorems. -/

/-- Claim C8: with both protocol versions enabled, Handle routes a connection
whose first byte is 1 (0x31) to the v1 sub-server and one whose first byte
is 2 (0x32) to the v2 sub-server, handing over a wrapper connection with
the peeked byte prepended back onto the read stream; any other first byte
closes the connection (no response is ever written on any path of Handle). -/
theorem handle_routes_by_first_byte :
    (∀ rest : List Nat, Handle (serverMuxes true true) (49 :: rest) =
      HandleResult.routed 49 (newMuxConn 49 rest)) ∧
    (∀ rest : List Nat, Handle (serverMuxes true true) (50 :: rest) =
      HandleResult.routed 50 (newMuxConn 50 rest)) ∧
    (∀ (b : Nat) (rest : List Nat), newMuxConn b rest = b :: rest) ∧
    (∀ (b : Nat) (rest : List Nat), b ≠ 49 → b ≠ 50 →
      Handle (serverMuxes true true) (b :: rest) = HandleResult.closed) := by
  refine ⟨fun rest => rfl, fun rest => rfl, fun b rest => rfl, ?_⟩
  intro b rest h1 h2
  simp [Handle, serverMuxes, routeMux, Ne.symm h1, Ne.symm h2]

theorem handle_routes_by_first_byte_witness :
    (51 : Nat) ≠ 49 ∧ (51 : Nat) ≠ 50 ∧
    Handle (serverMuxes true true) (51 :: []) = HandleResult.closed := by
  refine ⟨by decide, by decide, ?_⟩
  exact handle_routes_by_first_byte.2.2.2 51 [] (by decide) (by decide)

/-- Claim C9 (counterexample): the claim states that Server.Close is
idempotent. server.Close has no guard: its first statement is close(s.done),
and closing an already-closed Go channel is a runtime panic, so the second
Close on a freshly closed server panics instead of being a safe no-op. -/
theorem close_twice_panics :
    (serverClose ⟨false, true, false⟩).bind serverClose =
      Except.error GoPanic.closeOfClosedChannel := rfl

/-- Claim C9 (amended): Server.Close is not idempotent: after any successful
Close, a second Close panics by closing the already-closed done channel. -/
theorem close_not_idempotent :
    ∀ s s' : ServerState, serverClose s = Except.ok s' →
      serverClose s' = Except.error GoPanic.closeOfClosedChannel := by
  intro s s' h
  unfold serverClose at h
  by_cases h1 : s.doneClosed
  · simp [h1] at h
  · by_cases h2 : s.ownCH && s.chClosed
    · simp [h1, h2] at h
    · simp [h1, h2] at h
      subst h
      simp [serverClose]

theorem close_not_idempotent_witness :
    serverClose ⟨false, false, false⟩ = Except.ok ⟨true, false, false⟩ ∧
    serverClose ⟨true, false, false⟩ = Except.error GoPanic.closeOfClosedChannel := by
  refine ⟨rfl, ?_⟩
  exact close_not_idempotent ⟨false, false, false⟩ ⟨true, false, false⟩ rfl

end GoLumber
